import Mathlib

/-!
Shallow embedding of the curriculum-progress-tracker core:
the domain model (src/types/curriculum.ts), the progress engine
(src/utils/progressCalculator.ts), the state reducer
(src/context/CurriculumContext.tsx), the date validator
(src/utils/dateValidation.ts) and the persistence adapter
(src/utils/localStorage.ts).

Modelling conventions:
- JavaScript numbers holding ids / progress percentages are modelled as
  `Int`; counts as `Nat`.  `Math.round((c / t) * 100)` is modelled by the
  exact rational rounding `round(100*c/t) = (200*c + t) / (2*t)` (round
  half towards positive infinity, which is Math.round's rule); the
  floating-point evaluation of the quotient is abstracted to exact
  rational arithmetic.
- A JavaScript `Date` is identified by its millisecond time value; an
  Invalid Date (NaN time value) is modelled by `none`.
- Optional values / possibly-absent fields are `Option`; JavaScript
  truthiness of each relevant type is modelled explicitly (0, "", null,
  undefined, false are falsy; every object - in particular every Date,
  valid or not - is truthy).
-/

/-- A JavaScript Date: its millisecond time value, or `none` for an
Invalid Date (one whose `getTime()` is NaN). -/
structure JSDate where
  time : Option Int
deriving DecidableEq, Repr

/-- `Course` from src/types/curriculum.ts. -/
structure Course where
  id : String
  name : String
  startDate : Option JSDate := none
  endDate : Option JSDate := none
  completed : Bool
deriving DecidableEq, Repr

/-- `Week` from src/types/curriculum.ts. -/
structure Week where
  id : Int
  title : String
  courses : List Course
  progress : Int
deriving DecidableEq, Repr

/-- `CurriculumState` from src/types/curriculum.ts. -/
structure CurriculumState where
  weeks : List Week
  overallProgress : Int
deriving DecidableEq, Repr

/-- Exact model of `Math.round((num / den) * 100)` for natural `num`
and positive natural `den`: round half up over exact rationals,
`floor(100*num/den + 1/2) = (200*num + den) / (2*den)`. -/
def jsRound100 (num den : Nat) : Nat :=
  (200 * num + den) / (2 * den)

/-- `courses.filter(course => course.completed).length`. -/
def completedCount (courses : List Course) : Nat :=
  (courses.filter (fun course => course.completed)).length

/-- `calculateWeekProgress` from src/utils/progressCalculator.ts. -/
def calculateWeekProgress (courses : List Course) : Int :=
  if courses.length = 0 then 0
  else (jsRound100 (completedCount courses) courses.length : Nat)

/-- The total course count of `calculateOverallProgress`, written with the
same left fold as the source's `weeks.reduce((total, week) => total +
week.courses.length, 0)`. -/
def totalCoursesFold (weeks : List Week) : Nat :=
  weeks.foldl (fun total week => total + week.courses.length) 0

/-- The completed course count of `calculateOverallProgress`:
`weeks.reduce((total, week) => total + week.courses.filter(c => c.completed).length, 0)`. -/
def completedCoursesFold (weeks : List Week) : Nat :=
  weeks.foldl (fun total week => total + completedCount week.courses) 0

/-- `calculateOverallProgress` from src/utils/progressCalculator.ts. -/
def calculateOverallProgress (weeks : List Week) : Int :=
  if totalCoursesFold weeks = 0 then 0
  else (jsRound100 (completedCoursesFold weeks) (totalCoursesFold weeks) : Nat)

/-- `updateAllProgress` from src/utils/progressCalculator.ts. -/
def updateAllProgress (state : CurriculumState) : CurriculumState :=
  let updatedWeeks := state.weeks.map (fun week =>
    { week with progress := calculateWeekProgress week.courses })
  { weeks := updatedWeeks
    overallProgress := calculateOverallProgress updatedWeeks }

/-- `CurriculumAction` from src/types/curriculum.ts: a tagged payload whose
fields are all optional (the reducer guards on their truthiness).  The
`unknownAction` constructor stands for any action kind outside the four
known tags, handled by the reducer's default branch. -/
inductive CurriculumAction
  | setStartDate (weekId : Option Int) (courseId : Option String) (date : Option JSDate)
  | setEndDate (weekId : Option Int) (courseId : Option String) (date : Option JSDate)
  | toggleCompletion (weekId : Option Int) (courseId : Option String)
  | loadData (data : Option CurriculumState)
  | unknownAction
deriving DecidableEq, Repr

/-- `curriculumReducer` from src/context/CurriculumContext.tsx.  Each guard
`if (!weekId || !courseId || !date) return state` is modelled by pattern
matching (absent field) together with the JavaScript falsiness of 0 for
`weekId` and of "" for `courseId`; a `date` that is present is a Date
object and hence always truthy. -/
def curriculumReducer (state : CurriculumState) (action : CurriculumAction) : CurriculumState :=
  match action with
  | .setStartDate weekId courseId date =>
    match weekId, courseId, date with
    | some wid, some cid, some d =>
      if wid = 0 ∨ cid = "" then state
      else
        updateAllProgress
          { state with
            weeks := state.weeks.map (fun week =>
              if week.id = wid then
                { week with
                  courses := week.courses.map (fun course =>
                    if course.id = cid then { course with startDate := some d }
                    else course) }
              else week) }
    | _, _, _ => state
  | .setEndDate weekId courseId date =>
    match weekId, courseId, date with
    | some wid, some cid, some d =>
      if wid = 0 ∨ cid = "" then state
      else
        updateAllProgress
          { state with
            weeks := state.weeks.map (fun week =>
              if week.id = wid then
                { week with
                  courses := week.courses.map (fun course =>
                    if course.id = cid then { course with endDate := some d }
                    else course) }
              else week) }
    | _, _, _ => state
  | .toggleCompletion weekId courseId =>
    match weekId, courseId with
    | some wid, some cid =>
      if wid = 0 ∨ cid = "" then state
      else
        updateAllProgress
          { state with
            weeks := state.weeks.map (fun week =>
              if week.id = wid then
                { week with
                  courses := week.courses.map (fun course =>
                    if course.id = cid then { course with completed := !course.completed }
                    else course) }
              else week) }
    | _, _ => state
  | .loadData data =>
    match data with
    | some d => updateAllProgress d
    | none => state
  | .unknownAction => state

/-- The structural no-op paths of the reducer: an unknown action kind, or a
required payload field that is missing or falsy.  These are exactly the
branches of `curriculumReducer` that return the input state without
recomputing progress. -/
def isStructuralNoOp (action : CurriculumAction) : Bool :=
  match action with
  | .setStartDate (some wid) (some cid) (some _) => wid = 0 ∨ cid = ""
  | .setStartDate _ _ _ => true
  | .setEndDate (some wid) (some cid) (some _) => wid = 0 ∨ cid = ""
  | .setEndDate _ _ _ => true
  | .toggleCompletion (some wid) (some cid) => wid = 0 ∨ cid = ""
  | .toggleCompletion _ _ => true
  | .loadData (some _) => false
  | .loadData none => true
  | .unknownAction => true

/-- A state whose stored `progress` fields are stale (hand-set to 50 on an
empty week): used to probe whether reducer no-op paths preserve such
states exactly. -/
def staleExampleState : CurriculumState :=
  { weeks := [{ id := 1, title := "Week 1", courses := [], progress := 50 }],
    overallProgress := 50 }

/-- A state containing a week whose id is 0 (a falsy id in JavaScript),
with one course that has an end date set. -/
def weekZeroExampleState : CurriculumState :=
  { weeks := [{ id := 0, title := "Week 0",
                courses := [{ id := "c", name := "A",
                              endDate := some { time := some 100 },
                              completed := false }],
                progress := 0 }],
    overallProgress := 0 }

/-- A state whose progress fields are consistent with its course data, and
whose single course carries an end date. -/
def consistentExampleState : CurriculumState :=
  { weeks := [{ id := 1, title := "Week 1",
                courses := [{ id := "c1", name := "A",
                              endDate := some { time := some 400 },
                              completed := true }],
                progress := 100 }],
    overallProgress := 100 }

/-- The derived-value invariant on a single week, exactly as the spec
states it: `progress == round(100 * completedCount / totalCount)`, or `0`
when `courses` is empty. -/
def weekProgressInvariant (week : Week) : Prop :=
  week.progress =
    (if week.courses.length = 0 then 0
     else (jsRound100 (completedCount week.courses) week.courses.length : Int))

instance (week : Week) : Decidable (weekProgressInvariant week) := by
  unfold weekProgressInvariant; infer_instance

/-- The derived-value invariant on a whole state: every week satisfies
`weekProgressInvariant`, and `overallProgress` is the rounded ratio over
the flattened course set across all weeks (`0` when there are no courses
anywhere). -/
def progressInvariant (state : CurriculumState) : Prop :=
  (∀ week ∈ state.weeks, weekProgressInvariant week) ∧
  state.overallProgress =
    (if (state.weeks.map (fun w => w.courses.length)).sum = 0 then 0
     else (jsRound100 ((state.weeks.map (fun w => completedCount w.courses)).sum)
            ((state.weeks.map (fun w => w.courses.length)).sum) : Int))

instance (state : CurriculumState) : Decidable (progressInvariant state) := by
  unfold progressInvariant
  exact instDecidableAnd

/-- The `errorType` values of `DateValidationResult`
(src/utils/dateValidation.ts). -/
inductive DateErrorType
  | INVALID_FORMAT
  | START_AFTER_END
  | FUTURE_DATE
  | INVALID_RANGE
  | REQUIRED_FIELD
deriving DecidableEq, Repr

/-- `DateValidationResult` from src/utils/dateValidation.ts. -/
structure DateValidationResult where
  isValid : Bool
  errorMessage : String
  errorType : Option DateErrorType := none
deriving DecidableEq, Repr

/-- The `customMessages` field of `DateValidationOptions`: every entry is
optional and, when present, overrides the default message. -/
structure CustomMessages where
  required : Option String := none
  invalidFormat : Option String := none
  startAfterEnd : Option String := none
  futureDate : Option String := none
  pastDate : Option String := none
  futureDateNotAllowed : Option String := none
  beforeMin : Option String := none
  afterMax : Option String := none
deriving DecidableEq, Repr

/-- `DateValidationOptions` from src/utils/dateValidation.ts.  Optional
boolean fields are modelled as `Bool` defaulting to `false` (an absent
field is falsy). -/
structure DateValidationOptions where
  required : Bool := false
  minDate : Option JSDate := none
  maxDate : Option JSDate := none
  warnFutureDates : Bool := false
  requireFutureDates : Bool := false
  disallowFutureDates : Bool := false
  customMessages : Option CustomMessages := none
deriving DecidableEq, Repr

/-- The fully-defaulted message record produced by
`{ ...DEFAULT_ERROR_MESSAGES, ...options.customMessages }`. -/
structure ErrorMessages where
  required : String
  invalidFormat : String
  startAfterEnd : String
  futureDate : String
  pastDate : String
  futureDateNotAllowed : String
  beforeMin : String
  afterMax : String
deriving DecidableEq, Repr

/-- `DEFAULT_ERROR_MESSAGES` from src/utils/dateValidation.ts. -/
def defaultErrorMessages : ErrorMessages :=
  { required := "날짜를 입력해주세요."
    invalidFormat := "올바른 날짜 형식이 아닙니다."
    startAfterEnd := "시작일은 종료일보다 이전이어야 합니다."
    futureDate := "미래 날짜는 권장되지 않습니다."
    pastDate := "미래 날짜만 선택할 수 있습니다."
    futureDateNotAllowed := "미래 날짜는 선택할 수 없습니다."
    beforeMin := "날짜는 \x7bminDate\x7d 이후여야 합니다."
    afterMax := "날짜는 \x7bmaxDate\x7d 이전이어야 합니다." }

/-- The spread `{ ...DEFAULT_ERROR_MESSAGES, ...options.customMessages }`. -/
def mergeMessages (options : DateValidationOptions) : ErrorMessages :=
  let c := options.customMessages.getD {}
  { required := c.required.getD defaultErrorMessages.required
    invalidFormat := c.invalidFormat.getD defaultErrorMessages.invalidFormat
    startAfterEnd := c.startAfterEnd.getD defaultErrorMessages.startAfterEnd
    futureDate := c.futureDate.getD defaultErrorMessages.futureDate
    pastDate := c.pastDate.getD defaultErrorMessages.pastDate
    futureDateNotAllowed := c.futureDateNotAllowed.getD defaultErrorMessages.futureDateNotAllowed
    beforeMin := c.beforeMin.getD defaultErrorMessages.beforeMin
    afterMax := c.afterMax.getD defaultErrorMessages.afterMax }

/-- JavaScript `a < b` on Dates (compared via their time values): any
comparison involving a NaN time value is false. -/
def jsDateLt (a b : JSDate) : Bool :=
  match a.time, b.time with
  | some x, some y => x < y
  | _, _ => false

/-- JavaScript `a > b` on Dates: false when either time value is NaN. -/
def jsDateGt (a b : JSDate) : Bool :=
  match a.time, b.time with
  | some x, some y => y < x
  | _, _ => false

/-- JavaScript `a <= b` on Dates: false when either time value is NaN. -/
def jsDateLe (a b : JSDate) : Bool :=
  match a.time, b.time with
  | some x, some y => x ≤ y
  | _, _ => false

/-- Modelled from the runtime: `Date.prototype.toLocaleDateString('ko-KR')`
is an Intl (environment) function, not part of the repository; it is only
interpolated into `INVALID_RANGE` error messages.  Modelled by the decimal
time value (an Invalid Date renders as the string "Invalid Date"). -/
def toLocaleDateStringKoKR (d : JSDate) : String :=
  match d.time with
  | some t => toString t
  | none => "Invalid Date"

/-- The condition `options.minDate && date < options.minDate` (a Date
object, valid or not, is truthy). -/
def minDateFails (options : DateValidationOptions) (d : JSDate) : Bool :=
  match options.minDate with
  | some m => jsDateLt d m
  | none => false

/-- The rendered min date used in the `beforeMin` message. -/
def minDateText (options : DateValidationOptions) : String :=
  match options.minDate with
  | some m => toLocaleDateStringKoKR m
  | none => ""

/-- The condition `options.maxDate && date > options.maxDate`. -/
def maxDateFails (options : DateValidationOptions) (d : JSDate) : Bool :=
  match options.maxDate with
  | some m => jsDateGt d m
  | none => false

/-- The rendered max date used in the `afterMax` message. -/
def maxDateText (options : DateValidationOptions) : String :=
  match options.maxDate with
  | some m => toLocaleDateStringKoKR m
  | none => ""

/-- `validateDate` from src/utils/dateValidation.ts.  The environment clock
is supplied as parameters: `now` models `new Date()` and `todayMid` models
`getTodayAtMidnight()`.  The source's first two early returns
(`options.required && !date`, then `!date`) are modelled by the outer
match: a present argument is a Date object and therefore truthy even when
Invalid, so `!date` holds exactly for an absent argument. -/
def validateDate (date : Option JSDate) (options : DateValidationOptions)
    (now todayMid : Int) : DateValidationResult :=
  let messages := mergeMessages options
  match date with
  | none =>
    if options.required then
      { isValid := false, errorMessage := messages.required,
        errorType := some .REQUIRED_FIELD }
    else
      { isValid := true, errorMessage := "" }
  | some d =>
    match d.time with
    | none =>
      { isValid := false, errorMessage := messages.invalidFormat,
        errorType := some .INVALID_FORMAT }
    | some _ =>
      if minDateFails options d then
        { isValid := false
          errorMessage := messages.beforeMin.replace "\x7bminDate\x7d" (minDateText options)
          errorType := some .INVALID_RANGE }
      else if maxDateFails options d then
        { isValid := false
          errorMessage := messages.afterMax.replace "\x7bmaxDate\x7d" (maxDateText options)
          errorType := some .INVALID_RANGE }
      else if options.disallowFutureDates && jsDateGt d { time := some todayMid } then
        { isValid := false, errorMessage := messages.futureDateNotAllowed,
          errorType := some .FUTURE_DATE }
      else if options.requireFutureDates && jsDateLe d { time := some todayMid } then
        { isValid := false, errorMessage := messages.pastDate,
          errorType := some .FUTURE_DATE }
      else if options.warnFutureDates && jsDateGt d { time := some now } then
        { isValid := false, errorMessage := messages.futureDate,
          errorType := some .FUTURE_DATE }
      else
        { isValid := true, errorMessage := "" }

/-- `validateDateRange` from src/utils/dateValidation.ts. -/
def validateDateRange (startDate endDate : Option JSDate)
    (options : DateValidationOptions) : DateValidationResult :=
  let messages := mergeMessages options
  match startDate, endDate with
  | some s, some e =>
    if s.time.isNone || e.time.isNone then
      { isValid := false, errorMessage := messages.invalidFormat,
        errorType := some .INVALID_FORMAT }
    else if jsDateGt s e then
      { isValid := false, errorMessage := messages.startAfterEnd,
        errorType := some .START_AFTER_END }
    else
      { isValid := true, errorMessage := "" }
  | _, _ =>
    { isValid := true, errorMessage := "" }

/-- A JSON string as it appears in a stored record: either the exact
ISO-8601 rendering of a millisecond timestamp, identified by that
timestamp, or any other string.  `Date.prototype.toISOString` is injective
and `new Date(isoText)` parses the rendering back to the same time value,
so the external ISO codec is kept abstract while preserving exactly the
two properties the code relies on (injectivity and exact round-trip). -/
inductive JStr
  | iso (t : Int)
  | plain (s : String)
deriving DecidableEq, Repr

/-- JavaScript truthiness of a string: nonempty.  An ISO rendering is never
empty. -/
def jstrTruthy : JStr → Bool
  | .iso _ => true
  | .plain s => s ≠ ""

/-- `new Date(s)` on a stored string: an ISO rendering parses back to its
time value.  The load path only parses strings written by `toISOString`;
parsing of other text is environment-dependent and modelled as an Invalid
Date. -/
def jsNewDateOfString : JStr → JSDate
  | .iso t => { time := some t }
  | .plain _ => { time := none }

/-- A parsed JSON value (the possible results of `JSON.parse`). -/
inductive Jval
  | jnull
  | jbool (b : Bool)
  | jnum (n : Int)
  | jstr (s : JStr)
  | jarr (elements : List Jval)
  | jobj (fields : List (String × Jval))
deriving Repr

/-- First-match lookup in an association list (a parsed JSON object has
unique keys, so first match is the binding). -/
def lookupFirst {β : Type} : List (String × β) → String → Option β
  | [], _ => none
  | (k, v) :: rest, key => if k = key then some v else lookupFirst rest key

/-- The own enumerable entries seen by `for (const k in v)`: an object's
fields, an array's elements under their decimal index keys, nothing for
primitives. -/
def jvalEntries : Jval → List (String × Jval)
  | .jobj fields => fields
  | .jarr elements => elements.enum.map (fun p => (toString p.1, p.2))
  | _ => []

/-- JavaScript property access `v[k]` for a string key: a binding of an
object, an element of an array under its index key, `undefined` (`none`)
otherwise. -/
def propGet (v : Jval) (key : String) : Option Jval :=
  lookupFirst (jvalEntries v) key

/-- JavaScript truthiness of a property value (`undefined`, `null`,
`false`, `0` and `""` are falsy; objects and arrays are truthy). -/
def jvalTruthy : Option Jval → Bool
  | none => false
  | some .jnull => false
  | some (.jbool b) => b
  | some (.jnum n) => n ≠ 0
  | some (.jstr s) => jstrTruthy s
  | some (.jarr _) => true
  | some (.jobj _) => true

/-- The check `typeof x === 'object' && x !== null` (arrays are objects;
`typeof null` is 'object' but the sources pair the typeof test with an
explicit null test). -/
def jvalIsNonNullObject : Jval → Bool
  | .jobj _ => true
  | .jarr _ => true
  | _ => false

/-- `typeof x === 'boolean'` on a property value. -/
def jvalIsBool : Option Jval → Bool
  | some (.jbool _) => true
  | _ => false

/-- `typeof x === 'string'` on a property value. -/
def jvalIsString : Option Jval → Bool
  | some (.jstr _) => true
  | _ => false

/-- JavaScript strict equality of a property value with a string literal:
true only for a string of exactly that text.  An ISO rendering is a
timestamp string and never equals the version literal. -/
def jvalPropIsPlainString (v : Option Jval) (s : String) : Bool :=
  match v with
  | some (.jstr (.plain s2)) => s2 = s
  | _ => false

/-- The per-course validation of `validateStoredData`
(src/utils/localStorage.ts): a non-null object whose `completed` is a
boolean and whose `startDate`/`endDate`, when truthy, are strings. -/
def validCourseEntry (courseData : Jval) : Bool :=
  jvalIsNonNullObject courseData &&
  jvalIsBool (propGet courseData "completed") &&
  (!(jvalTruthy (propGet courseData "startDate")) ||
    jvalIsString (propGet courseData "startDate")) &&
  (!(jvalTruthy (propGet courseData "endDate")) ||
    jvalIsString (propGet courseData "endDate"))

/-- `validateStoredData` from src/utils/localStorage.ts, on the parsed JSON
value: the record is a non-null object with truthy `version`,
`lastUpdated` and `curriculum`; `curriculum` is a non-null object each of
whose entries is a non-null object of valid course entries. -/
def validateStoredData (data : Jval) : Bool :=
  jvalIsNonNullObject data &&
  jvalTruthy (propGet data "version") &&
  jvalTruthy (propGet data "lastUpdated") &&
  jvalTruthy (propGet data "curriculum") &&
  (match propGet data "curriculum" with
   | some curriculum =>
     jvalIsNonNullObject curriculum &&
     (jvalEntries curriculum).all (fun weekEntry =>
       jvalIsNonNullObject weekEntry.2 &&
       (jvalEntries weekEntry.2).all (fun courseEntry =>
         validCourseEntry courseEntry.2))
   | none => false)

/-- The per-course record stored under `curriculum[weekId][courseId]`: the
optional dates hold the time value their ISO rendering denotes (after
JSON serialization, which drops fields whose value is `undefined`). -/
structure StoredCourse where
  startDate : Option Int := none
  endDate : Option Int := none
  completed : Bool
deriving DecidableEq, Repr

/-- `StoredData` from src/types/curriculum.ts: `lastUpdated` holds the time
value whose ISO rendering `new Date().toISOString()` produced. -/
structure StoredData where
  version : String
  lastUpdated : Int
  curriculum : List (String × List (String × StoredCourse))
deriving DecidableEq, Repr

/-- JavaScript object assignment `obj[k] = v`: overwrite an existing binding
in place (keys keep their first-insertion position), else append. -/
def objUpsert {β : Type} : List (String × β) → String → β → List (String × β)
  | [], key, v => [(key, v)]
  | (k, w) :: rest, key, v =>
    if k = key then (key, v) :: rest else (k, w) :: objUpsert rest key v

/-- `course.startDate?.toISOString()` / `course.endDate?.toISOString()`:
`none` models the RangeError thrown on an Invalid Date. -/
def storedCourseOf (course : Course) : Option StoredCourse := do
  let sd ← match course.startDate with
    | none => some none
    | some d => match d.time with
      | some t => some (some t)
      | none => none
  let ed ← match course.endDate with
    | none => some none
    | some d => match d.time with
      | some t => some (some t)
      | none => none
  some { startDate := sd, endDate := ed, completed := course.completed }

/-- `curriculumStateToStoredData` from src/utils/localStorage.ts, with the
wall clock of the save supplied as `now`.  The two nested `forEach` loops
assign into the curriculum object; `none` models a thrown RangeError from
`toISOString` on an Invalid Date (caught in the caller's try block). -/
def curriculumStateToStoredData (state : CurriculumState) (now : Int) :
    Option StoredData := do
  let curriculum ← state.weeks.foldlM (fun acc week => do
    let weekKey := toString week.id
    let withWeek := objUpsert acc weekKey ([] : List (String × StoredCourse))
    week.courses.foldlM (fun acc2 course => do
      let sc ← storedCourseOf course
      let inner := (lookupFirst acc2 weekKey).getD []
      pure (objUpsert acc2 weekKey (objUpsert inner course.id sc))) withWeek)
    ([] : List (String × List (String × StoredCourse)))
  some { version := "1.0.0", lastUpdated := now, curriculum := curriculum }

/-- The JSON text written by `JSON.stringify` on a stored course, as the
value it parses back to; an absent date field is dropped entirely. -/
def encodeStoredCourse (sc : StoredCourse) : Jval :=
  .jobj ((match sc.startDate with
          | some t => [("startDate", Jval.jstr (.iso t))]
          | none => []) ++
         (match sc.endDate with
          | some t => [("endDate", Jval.jstr (.iso t))]
          | none => []) ++
         [("completed", Jval.jbool sc.completed)])

/-- The JSON text written by `JSON.stringify` on the whole record, as the
value it parses back to. -/
def encodeStoredData (sd : StoredData) : Jval :=
  .jobj [("version", Jval.jstr (.plain sd.version)),
         ("lastUpdated", Jval.jstr (.iso sd.lastUpdated)),
         ("curriculum", Jval.jobj (sd.curriculum.map (fun weekEntry =>
           (weekEntry.1, Jval.jobj (weekEntry.2.map (fun courseEntry =>
             (courseEntry.1, encodeStoredCourse courseEntry.2)))))))]

/-- `new Date(x)` for a property value on the load path: a string parses by
the ISO rule; a number is taken as a time value.  After validation the
argument is always a truthy string. -/
def jvalToDate : Jval → JSDate
  | .jstr s => jsNewDateOfString s
  | .jnum n => { time := some n }
  | _ => { time := none }

/-- `storedDataToCurriculumState` from src/utils/localStorage.ts, operating
on the parsed (and already validated) JSON value: overlays the stored
per-course data onto the seed state by week-id-string then course-id keys;
missing entries keep the seed's course; the result carries
`overallProgress := 0` (recomputed later by the reducer). -/
def storedDataToCurriculumState (storedData : Jval) (initialState : CurriculumState) :
    CurriculumState :=
  let curriculum := (propGet storedData "curriculum").getD .jnull
  let updatedWeeks := initialState.weeks.map (fun week =>
    let weekData := propGet curriculum (toString week.id)
    if !(jvalTruthy weekData) then week
    else
      let weekObj := weekData.getD .jnull
      { week with
        courses := week.courses.map (fun course =>
          let courseData := propGet weekObj course.id
          if !(jvalTruthy courseData) then course
          else
            let courseObj := courseData.getD .jnull
            { course with
              startDate :=
                if jvalTruthy (propGet courseObj "startDate") then
                  some (jvalToDate ((propGet courseObj "startDate").getD .jnull))
                else none
              endDate :=
                if jvalTruthy (propGet courseObj "endDate") then
                  some (jvalToDate ((propGet courseObj "endDate").getD .jnull))
                else none
              completed :=
                match propGet courseObj "completed" with
                | some (.jbool b) => b
                | _ => false }) })
  { weeks := updatedWeeks, overallProgress := 0 }

/-- The record cell under the storage key "curriculum-progress-tracker":
text that parses as JSON (to `v`), or nonempty text that does not
(`JSON.parse` throws on it). -/
inductive StoreCell
  | jsonText (v : Jval)
  | rawText (s : String)
deriving Repr

/-- The outcome of one `localStorage.setItem` call under the storage key. -/
inductive WriteOutcome
  | ok
  | quotaExceeded
  | otherError
deriving DecidableEq, Repr

/-- The browser storage environment: whether the availability probe
succeeds, the cell under the storage key, and the queued outcomes of
successive writes (an empty queue means writes succeed). -/
structure StorageEnv where
  available : Bool
  cell : Option StoreCell
  writeOutcomes : List WriteOutcome
deriving Repr

/-- `localStorage.setItem(STORAGE_KEY, text)`: consumes the next queued
outcome; on success the cell is replaced, on failure the corresponding
exception is thrown (returned as the outcome). -/
def storeSetItem (env : StorageEnv) (v : StoreCell) : WriteOutcome × StorageEnv :=
  match env.writeOutcomes with
  | [] => (.ok, { env with cell := some v })
  | o :: rest =>
    match o with
    | .ok => (.ok, { env with cell := some v, writeOutcomes := rest })
    | _ => (o, { env with writeOutcomes := rest })

/-- `localStorage.removeItem(STORAGE_KEY)`. -/
def storeRemoveItem (env : StorageEnv) : StorageEnv :=
  { env with cell := none }

/-- `saveCurriculumState` from src/utils/localStorage.ts: returns whether
the save succeeded, together with the storage environment afterwards.  A
RangeError from `toISOString` is caught and (not being a
QuotaExceededError) yields false; a QuotaExceededError triggers one
remove-and-retry; any other write error yields false. -/
def saveCurriculumState (env : StorageEnv) (now : Int) (state : CurriculumState) :
    Bool × StorageEnv :=
  if !env.available then (false, env)
  else
    match curriculumStateToStoredData state now with
    | none => (false, env)
    | some sd =>
      let step1 := storeSetItem env (.jsonText (encodeStoredData sd))
      match step1.1 with
      | .ok => (true, step1.2)
      | .quotaExceeded =>
        let cleared := storeRemoveItem step1.2
        let step2 := storeSetItem cleared (.jsonText (encodeStoredData sd))
        match step2.1 with
        | .ok => (true, step2.2)
        | _ => (false, step2.2)
      | .otherError => (false, step1.2)

/-- `loadCurriculumState` from src/utils/localStorage.ts: `none` when the
store is unavailable, the record is absent, `JSON.parse` throws (the catch
block clears the record), structural validation fails or the version
mismatches (both clear the record); otherwise the overlaid state. -/
def loadCurriculumState (env : StorageEnv) (initialState : CurriculumState) :
    Option CurriculumState × StorageEnv :=
  if !env.available then (none, env)
  else
    match env.cell with
    | none => (none, env)
    | some (.rawText _) => (none, storeRemoveItem env)
    | some (.jsonText v) =>
      if !(validateStoredData v) then (none, storeRemoveItem env)
      else if !(jvalPropIsPlainString (propGet v "version") "1.0.0") then
        (none, storeRemoveItem env)
      else (some (storedDataToCurriculumState v initialState), env)

/-- The result shape of `getStorageInfo`.  The `size` field (length of the
serialized text) is not modelled; no claim concerns it. -/
structure StorageInfo where
  hasData : Bool
  version : Option Jval := none
  lastUpdated : Option Jval := none
deriving Repr

/-- `getStorageInfo` from src/utils/localStorage.ts: `hasData := false` when
the store is unavailable, the record is absent, `JSON.parse` throws, or
the parsed value is `null` (property access on null throws and is
caught). -/
def getStorageInfo (env : StorageEnv) : StorageInfo :=
  if !env.available then { hasData := false }
  else
    match env.cell with
    | none => { hasData := false }
    | some (.rawText _) => { hasData := false }
    | some (.jsonText .jnull) => { hasData := false }
    | some (.jsonText v) =>
      { hasData := true
        version := propGet v "version"
        lastUpdated := propGet v "lastUpdated" }

/-- The rejection condition of `loadCurriculumState` on an available store:
the record is absent, is not JSON, fails structural validation, or has a
mismatched version. -/
def storedRecordRejected (cell : Option StoreCell) : Prop :=
  cell = none ∨
  (∃ s, cell = some (.rawText s)) ∨
  (∃ v, cell = some (.jsonText v) ∧
    (validateStoredData v = false ∨
     jvalPropIsPlainString (propGet v "version") "1.0.0" = false))

/-- Every date carried by the state's courses is a valid (non-NaN) date. -/
def dateFieldValid : Option JSDate → Bool
  | none => true
  | some d => d.time.isSome

/-- All dates in the state are valid (non-NaN). -/
def allDatesValid (state : CurriculumState) : Bool :=
  state.weeks.all (fun w => w.courses.all (fun c =>
    dateFieldValid c.startDate && dateFieldValid c.endDate))

/-- The seed has the same week ids and per-week course ids as the saved
state (the claim's "s-shaped skeleton"). -/
def sameShape (seed state : CurriculumState) : Prop :=
  List.Forall₂ (fun seedWeek stateWeek =>
    seedWeek.id = stateWeek.id ∧
    List.Forall₂ (fun seedCourse stateCourse =>
      seedCourse.id = stateCourse.id) seedWeek.courses stateWeek.courses)
    seed.weeks state.weeks

/-- A healthy storage environment: available, empty, all writes succeed. -/
def normalEnv : StorageEnv :=
  { available := true, cell := none, writeOutcomes := [] }

/-- An available environment holding non-JSON text under the storage key. -/
def corruptEnv : StorageEnv :=
  { available := true, cell := some (.rawText "this is not json"),
    writeOutcomes := [] }

/-- An available environment whose next write hits the quota and whose
retry succeeds. -/
def quotaRetryEnv : StorageEnv :=
  { available := true, cell := none,
    writeOutcomes := [.quotaExceeded, .ok] }

/-- A seed skeleton matching `consistentExampleState`: same week id and
course id, no completion and no dates. -/
def seedExampleState : CurriculumState :=
  { weeks := [{ id := 1, title := "Week 1",
                courses := [{ id := "c1", name := "A", completed := false }],
                progress := 0 }],
    overallProgress := 0 }

/-- The closed form of the stored record for one course with valid dates:
`toISOString` renders each present date, identified by its time value. -/
def storedCourseSpec (course : Course) : StoredCourse :=
  { startDate := course.startDate.bind (fun d => d.time)
    endDate := course.endDate.bind (fun d => d.time)
    completed := course.completed }

/-- The closed form of the whole stored record that
`curriculumStateToStoredData` builds for a state with valid dates and
distinct keys (proved below). -/
def storedDataSpec (state : CurriculumState) (now : Int) : StoredData :=
  { version := "1.0.0", lastUpdated := now,
    curriculum := state.weeks.map (fun w => (toString w.id,
      w.courses.map (fun c => (c.id, storedCourseSpec c)))) }

/-- The left folds of `calculateOverallProgress` compute the sums over the
flattened course set. -/
theorem totalCoursesFold_eq_sum (weeks : List Week) :
    totalCoursesFold weeks = (weeks.map (fun w => w.courses.length)).sum := by
  have h : ∀ (l : List Week) (n : Nat),
      l.foldl (fun total week => total + week.courses.length) n =
        n + (l.map (fun w => w.courses.length)).sum := by
    intro l
    induction l with
    | nil => simp
    | cons w l ih => intro n; simp [List.foldl_cons, ih, Nat.add_assoc]
  simpa using h weeks 0

theorem completedCoursesFold_eq_sum (weeks : List Week) :
    completedCoursesFold weeks = (weeks.map (fun w => completedCount w.courses)).sum := by
  have h : ∀ (l : List Week) (n : Nat),
      l.foldl (fun total week => total + completedCount week.courses) n =
        n + (l.map (fun w => completedCount w.courses)).sum := by
    intro l
    induction l with
    | nil => simp
    | cons w l ih => intro n; simp [List.foldl_cons, ih, Nat.add_assoc]
  simpa using h weeks 0

/-- After `updateAllProgress`, the derived-value invariant holds. -/
theorem progressInvariant_updateAllProgress (state : CurriculumState) :
    progressInvariant (updateAllProgress state) := by
  constructor
  · intro week hweek
    simp only [updateAllProgress, List.mem_map] at hweek
    obtain ⟨w, _, rfl⟩ := hweek
    simp [weekProgressInvariant, calculateWeekProgress]
  · simp only [updateAllProgress, calculateOverallProgress,
      totalCoursesFold_eq_sum, completedCoursesFold_eq_sum]

/-- Mapping the per-week recompute over a list of weeks that already satisfy
the per-week invariant is the identity. -/
theorem map_recompute_eq_self (l : List Week)
    (h : ∀ w ∈ l, weekProgressInvariant w) :
    l.map (fun week => { week with progress := calculateWeekProgress week.courses }) = l := by
  induction l with
  | nil => rfl
  | cons w l ih =>
    have hw : w.progress = calculateWeekProgress w.courses := h w (by simp)
    have hrest := ih (fun w hw => h w (by simp [hw]))
    simp only [List.map_cons, hrest]
    cases w with
    | mk id title courses progress =>
      simp only at hw
      rw [← hw]

/-- If the derived-value invariant already holds, `updateAllProgress` is the
identity. -/
theorem updateAllProgress_eq_self_of_invariant (state : CurriculumState)
    (h : progressInvariant state) : updateAllProgress state = state := by
  obtain ⟨hweeks, hoverall⟩ := h
  have hmap := map_recompute_eq_self state.weeks hweeks
  cases state with
  | mk weeks overall =>
    simp only at hmap hoverall
    unfold updateAllProgress
    simp only [hmap]
    congr 1
    rw [calculateOverallProgress, totalCoursesFold_eq_sum, completedCoursesFold_eq_sum]
    exact hoverall.symm

/-- Claim C1: for every state and action, if the reducer does not take a
structural no-op path (unknown action type, or a required payload field
missing/falsy), then in the returned state every week's `progress` is the
rounded completion ratio of its courses (0 when empty) and
`overallProgress` is the rounded ratio over the flattened course set
(0 when there are no courses anywhere). -/
theorem reducer_progress_invariant (state : CurriculumState) (action : CurriculumAction)
    (h : isStructuralNoOp action = false) :
    progressInvariant (curriculumReducer state action) := by
  cases action with
  | setStartDate weekId courseId date =>
    match weekId, courseId, date with
    | some wid, some cid, some d =>
      simp only [isStructuralNoOp, decide_eq_false_iff_not] at h
      simp only [curriculumReducer, if_neg h]
      exact progressInvariant_updateAllProgress _
    | none, _, _ => simp [isStructuralNoOp] at h
    | some _, none, _ => simp [isStructuralNoOp] at h
    | some _, some _, none => simp [isStructuralNoOp] at h
  | setEndDate weekId courseId date =>
    match weekId, courseId, date with
    | some wid, some cid, some d =>
      simp only [isStructuralNoOp, decide_eq_false_iff_not] at h
      simp only [curriculumReducer, if_neg h]
      exact progressInvariant_updateAllProgress _
    | none, _, _ => simp [isStructuralNoOp] at h
    | some _, none, _ => simp [isStructuralNoOp] at h
    | some _, some _, none => simp [isStructuralNoOp] at h
  | toggleCompletion weekId courseId =>
    match weekId, courseId with
    | some wid, some cid =>
      simp only [isStructuralNoOp, decide_eq_false_iff_not] at h
      simp only [curriculumReducer, if_neg h]
      exact progressInvariant_updateAllProgress _
    | none, _ => simp [isStructuralNoOp] at h
    | some _, none => simp [isStructuralNoOp] at h
  | loadData data =>
    match data with
    | some d =>
      simp only [curriculumReducer]
      exact progressInvariant_updateAllProgress _
    | none => simp [isStructuralNoOp] at h
  | unknownAction => simp [isStructuralNoOp] at h

/-- Witness for C1: a concrete toggle on a two-course week passes the guard
and the resulting state satisfies the derived-value invariant. -/
theorem reducer_progress_invariant_witness :
    isStructuralNoOp (.toggleCompletion (some 1) (some "c1")) = false ∧
    progressInvariant (curriculumReducer
      { weeks := [{ id := 1, title := "W1",
                    courses := [{ id := "c1", name := "A", completed := false },
                                { id := "c2", name := "B", completed := false }],
                    progress := 0 }],
        overallProgress := 0 }
      (.toggleCompletion (some 1) (some "c1"))) :=
  ⟨by decide,
   reducer_progress_invariant _ (.toggleCompletion (some 1) (some "c1")) (by decide)⟩

/-- Claim C2: `updateAllProgress` is idempotent: recomputing twice equals
recomputing once, by structural equality of the resulting trees. -/
theorem updateAllProgress_idempotent (state : CurriculumState) :
    updateAllProgress (updateAllProgress state) = updateAllProgress state :=
  updateAllProgress_eq_self_of_invariant _ (progressInvariant_updateAllProgress state)

/-- Mapping a function that fixes every element of a list is the identity. -/
theorem list_map_eq_self_of_fixes {α : Type} (l : List α) (f : α → α)
    (h : ∀ a ∈ l, f a = a) : l.map f = l := by
  induction l with
  | nil => rfl
  | cons a l ih =>
    simp only [List.map_cons, h a (by simp), ih (fun a ha => h a (by simp [ha]))]

/-- Claim C10: the reducer tests payload presence by JavaScript falsiness,
so a `weekId` of 0 is treated as missing: for every state, dispatching
SET_START_DATE, SET_END_DATE or TOGGLE_COMPLETION with `weekId` 0 (for any
`courseId` and `date` payload) returns the input state unchanged, so a week
with id 0 can never be modified through the action interface. -/
theorem reducer_week_id_zero_noop (state : CurriculumState)
    (courseId : Option String) (date : Option JSDate) :
    curriculumReducer state (.setStartDate (some 0) courseId date) = state ∧
    curriculumReducer state (.setEndDate (some 0) courseId date) = state ∧
    curriculumReducer state (.toggleCompletion (some 0) courseId) = state := by
  refine ⟨?_, ?_, ?_⟩ <;>
    (cases courseId <;> cases date <;> simp [curriculumReducer])

/-- Counterexample to claim C5 as stated: on a state whose stored `progress`
fields are stale, TOGGLE_COMPLETION with an unmatched weekId 999 still
recomputes progress, so the returned state is not deep-equal to the
input. -/
theorem toggle_unmatched_week_not_always_identity :
    curriculumReducer staleExampleState
      (.toggleCompletion (some 999) (some "c")) ≠ staleExampleState := by
  decide

/-- Claim C5 (amended): provided the state's derived progress fields are
consistent (as they are for every state the reducer itself produces),
dispatching TOGGLE_COMPLETION with a courseId present and a weekId that
matches no week returns a state structurally equal to the input. -/
theorem toggle_unmatched_week_noop (state : CurriculumState) (wid : Int) (cid : String)
    (hinv : progressInvariant state)
    (hunmatched : ∀ w ∈ state.weeks, w.id ≠ wid) :
    curriculumReducer state (.toggleCompletion (some wid) (some cid)) = state := by
  by_cases hguard : wid = 0 ∨ cid = ""
  · simp [curriculumReducer, hguard]
  · simp only [curriculumReducer, if_neg hguard]
    have hmap : state.weeks.map (fun week =>
        if week.id = wid then
          { week with
            courses := week.courses.map (fun course =>
              if course.id = cid then { course with completed := !course.completed }
              else course) }
        else week) = state.weeks := by
      apply list_map_eq_self_of_fixes
      intro w hw
      simp [hunmatched w hw]
    rw [hmap]
    have hstate : { state with weeks := state.weeks } = state := rfl
    rw [hstate]
    exact updateAllProgress_eq_self_of_invariant state hinv

/-- Witness for the amended C5: on a concrete consistent state, toggling
with weekId 999 returns the state unchanged. -/
theorem toggle_unmatched_week_noop_witness :
    curriculumReducer consistentExampleState
      (.toggleCompletion (some 999) (some "zzz")) = consistentExampleState :=
  toggle_unmatched_week_noop consistentExampleState 999 "zzz"
    (by decide) (by decide)

/-- Counterexample to claim C6 as stated: in a state containing a week whose
id is 0 with a course whose endDate is set, dispatching SET_START_DATE for
that (weekId, courseId) with a date strictly after the endDate is NOT
accepted: the state is returned unchanged and the startDate stays unset. -/
theorem set_start_date_week_zero_counterexample :
    (100 : Int) < 200 ∧
    curriculumReducer weekZeroExampleState
      (.setStartDate (some 0) (some "c") (some { time := some 200 })) =
      weekZeroExampleState ∧
    weekZeroExampleState.weeks.map (fun w => w.courses.map (fun c => c.startDate)) =
      [[none]] := by
  decide

/-- Claim C6 (amended): the reducer performs no date validation: for every
state containing (at week position i, course position j) a course with an
end date set, provided the ids are truthy (week id nonzero, course id
nonempty), dispatching SET_START_DATE for those ids with a date strictly
after the end date stores that startDate on the course and recomputes
progress; the semantically-invalid range is not rejected. -/
theorem set_start_date_no_validation (state : CurriculumState)
    (wid : Int) (cid : String) (d : JSDate) (i j : Nat) (w : Week) (c : Course)
    (te td : Int)
    (hwid : wid ≠ 0) (hcid : cid ≠ "")
    (hw : state.weeks.get? i = some w) (hwi : w.id = wid)
    (hc : w.courses.get? j = some c) (hcj : c.id = cid)
    (hend : c.endDate = some { time := some te })
    (hd : d.time = some td) (hafter : te < td) :
    (((curriculumReducer state
          (.setStartDate (some wid) (some cid) (some d))).weeks.get? i).bind
        (fun week => week.courses.get? j)).map (fun course => course.startDate)
      = some (some d) ∧
    progressInvariant (curriculumReducer state
      (.setStartDate (some wid) (some cid) (some d))) := by
  have hguard : ¬(wid = 0 ∨ cid = "") := by
    rintro (h | h) <;> [exact hwid h; exact hcid h]
  constructor
  · simp only [List.get?_eq_getElem?] at hw hc
    simp only [curriculumReducer, if_neg hguard, updateAllProgress]
    simp [List.getElem?_map, hw, hc, hwi, hcj]
  · simp only [curriculumReducer, if_neg hguard]
    exact progressInvariant_updateAllProgress _

/-- Witness for the amended C6: a concrete state where a start date strictly
after the course's end date is stored verbatim. -/
theorem set_start_date_no_validation_witness :
    (((curriculumReducer consistentExampleState
          (.setStartDate (some 1) (some "c1") (some { time := some 500 }))).weeks.get? 0).bind
        (fun week => week.courses.get? 0)).map (fun course => course.startDate)
      = some (some { time := some 500 }) ∧
    progressInvariant (curriculumReducer consistentExampleState
      (.setStartDate (some 1) (some "c1") (some { time := some 500 }))) :=
  set_start_date_no_validation consistentExampleState 1 "c1" { time := some 500 }
    0 0
    { id := 1, title := "Week 1",
      courses := [{ id := "c1", name := "A", startDate := none,
                    endDate := some { time := some 400 }, completed := true }],
      progress := 100 }
    { id := "c1", name := "A", startDate := none,
      endDate := some { time := some 400 }, completed := true }
    400 500 (by decide) (by decide) (by decide) (by decide) (by decide)
    (by decide) (by decide) (by decide) (by decide)

/-- Claim C7: validateDate's checks are evaluated in a fixed order with the
first failure winning: with `required` true, a present but unparseable
(NaN-time) date yields INVALID_FORMAT (never REQUIRED_FIELD); a missing
date with `required` true yields REQUIRED_FIELD; a missing date with
`required` false is valid. -/
theorem validateDate_ordering (options : DateValidationOptions) (now todayMid : Int) :
    (options.required = true →
      ∀ d : JSDate, d.time = none →
        validateDate (some d) options now todayMid =
          { isValid := false
            errorMessage := (mergeMessages options).invalidFormat
            errorType := some .INVALID_FORMAT }) ∧
    (options.required = true →
      validateDate none options now todayMid =
        { isValid := false
          errorMessage := (mergeMessages options).required
          errorType := some .REQUIRED_FIELD }) ∧
    (options.required = false →
      validateDate none options now todayMid =
        { isValid := true, errorMessage := "", errorType := none }) := by
  refine ⟨?_, ?_, ?_⟩
  · intro _ d hd
    simp [validateDate, hd]
  · intro hreq
    simp [validateDate, hreq]
  · intro hreq
    simp [validateDate, hreq]

/-- Witness for C7: the three branches at concrete inputs. -/
theorem validateDate_ordering_witness :
    validateDate (some { time := none }) { required := true } 0 0 =
      { isValid := false, errorMessage := "올바른 날짜 형식이 아닙니다.",
        errorType := some .INVALID_FORMAT } ∧
    validateDate none { required := true } 0 0 =
      { isValid := false, errorMessage := "날짜를 입력해주세요.",
        errorType := some .REQUIRED_FIELD } ∧
    validateDate none {} 0 0 =
      { isValid := true, errorMessage := "", errorType := none } :=
  ⟨(validateDate_ordering { required := true } 0 0).1 rfl { time := none } rfl,
   (validateDate_ordering { required := true } 0 0).2.1 rfl,
   (validateDate_ordering {} 0 0).2.2 rfl⟩

/-- Claim C8: validateDateRange is vacuously valid when either side is
absent; when both are present and either has a NaN time value it fails
with INVALID_FORMAT; when both are valid dates it fails with
START_AFTER_END iff the start is strictly after the end (equal dates are
valid). -/
theorem validateDateRange_policy (options : DateValidationOptions) :
    (∀ e, validateDateRange none e options =
      { isValid := true, errorMessage := "", errorType := none }) ∧
    (∀ s, validateDateRange s none options =
      { isValid := true, errorMessage := "", errorType := none }) ∧
    (∀ ds de : JSDate, ds.time = none ∨ de.time = none →
      validateDateRange (some ds) (some de) options =
        { isValid := false
          errorMessage := (mergeMessages options).invalidFormat
          errorType := some .INVALID_FORMAT }) ∧
    (∀ a b : Int,
      ((validateDateRange (some { time := some a }) (some { time := some b })
          options).errorType = some .START_AFTER_END ↔ b < a) ∧
      ((validateDateRange (some { time := some a }) (some { time := some b })
          options).isValid = true ↔ a ≤ b)) := by
  refine ⟨?_, ?_, ?_, ?_⟩
  · intro e; cases e <;> simp [validateDateRange]
  · intro s; cases s <;> simp [validateDateRange]
  · intro ds de h
    rcases h with h | h <;> simp [validateDateRange, h]
  · intro a b
    by_cases hab : b < a
    · simp [validateDateRange, jsDateGt, hab]
    · simp [validateDateRange, jsDateGt, hab]
      omega

/-- Witness for C8: the spec's boundary examples at concrete inputs: equal
dates are valid, a start strictly after the end is START_AFTER_END, a NaN
side is INVALID_FORMAT, an absent side is valid. -/
theorem validateDateRange_policy_witness :
    (validateDateRange (some { time := some 10 }) (some { time := some 10 }) {}).isValid
      = true ∧
    (validateDateRange (some { time := some 20 }) (some { time := some 10 }) {}).errorType
      = some .START_AFTER_END ∧
    validateDateRange (some { time := none }) (some { time := some 10 }) {} =
      { isValid := false, errorMessage := "올바른 날짜 형식이 아닙니다.",
        errorType := some .INVALID_FORMAT } ∧
    validateDateRange none (some { time := some 5 }) {} =
      { isValid := true, errorMessage := "", errorType := none } :=
  ⟨((validateDateRange_policy {}).2.2.2 10 10).2.mpr (by decide),
   ((validateDateRange_policy {}).2.2.2 20 10).1.mpr (by decide),
   (validateDateRange_policy {}).2.2.1 { time := none } { time := some 10 } (Or.inl rfl),
   (validateDateRange_policy {}).1 (some { time := some 5 })⟩

/-- Claim C4: on an available store, load(seed) returns null exactly when
the record is absent, JSON parsing fails, structural validation fails, or
the stored version differs from the expected schema version; and in every
such rejection case the stored record ends up absent, so a subsequent
info() reports hasData = false (self-healing). -/
theorem load_none_iff_rejected (env : StorageEnv) (initialState : CurriculumState)
    (havail : env.available = true) :
    ((loadCurriculumState env initialState).1 = none ↔ storedRecordRejected env.cell) ∧
    (storedRecordRejected env.cell →
      (getStorageInfo (loadCurriculumState env initialState).2).hasData = false) := by
  obtain ⟨avail, cell, outs⟩ := env
  simp only at havail
  subst havail
  match cell with
  | none =>
    refine ⟨⟨fun _ => Or.inl rfl, fun _ => by simp [loadCurriculumState]⟩, fun _ => ?_⟩
    simp [loadCurriculumState, getStorageInfo]
  | some (.rawText s) =>
    refine ⟨⟨fun _ => Or.inr (Or.inl ⟨s, rfl⟩), fun _ => by simp [loadCurriculumState]⟩,
      fun _ => ?_⟩
    simp [loadCurriculumState, getStorageInfo, storeRemoveItem]
  | some (.jsonText v) =>
    by_cases hval : validateStoredData v = true
    · by_cases hver : jvalPropIsPlainString (propGet v "version") "1.0.0" = true
      · refine ⟨⟨fun hnone => ?_, ?_⟩, fun hrej => ?_⟩
        · exfalso
          simp [loadCurriculumState, hval, hver] at hnone
        · rintro (h | ⟨s, h⟩ | ⟨v2, hv2, hbad⟩)
          · exact absurd h (by simp)
          · simp at h
          · simp only [Option.some.injEq, StoreCell.jsonText.injEq] at hv2
            subst hv2
            rcases hbad with h | h
            · rw [hval] at h; cases h
            · rw [hver] at h; cases h
        · exfalso
          rcases hrej with h | ⟨s, h⟩ | ⟨v2, hv2, hbad⟩
          · exact absurd h (by simp)
          · simp at h
          · simp only [Option.some.injEq, StoreCell.jsonText.injEq] at hv2
            subst hv2
            rcases hbad with h | h
            · rw [hval] at h; cases h
            · rw [hver] at h; cases h
      · have hver2 : jvalPropIsPlainString (propGet v "version") "1.0.0" = false := by
          simpa using hver
        refine ⟨⟨fun _ => Or.inr (Or.inr ⟨v, rfl, Or.inr hver2⟩),
          fun _ => by simp [loadCurriculumState, hval, hver2]⟩, fun _ => ?_⟩
        simp [loadCurriculumState, hval, hver2, storeRemoveItem, getStorageInfo]
    · have hval2 : validateStoredData v = false := by simpa using hval
      refine ⟨⟨fun _ => Or.inr (Or.inr ⟨v, rfl, Or.inl hval2⟩),
        fun _ => by simp [loadCurriculumState, hval2]⟩, fun _ => ?_⟩
      simp [loadCurriculumState, hval2, storeRemoveItem, getStorageInfo]

/-- Witness for C4: loading a record of non-JSON text returns null and a
subsequent info() reports no data. -/
theorem load_none_iff_rejected_witness :
    (loadCurriculumState corruptEnv seedExampleState).1 = none ∧
    (getStorageInfo (loadCurriculumState corruptEnv seedExampleState).2).hasData = false :=
  ⟨(load_none_iff_rejected corruptEnv seedExampleState rfl).1.mpr
      (Or.inr (Or.inl ⟨"this is not json", rfl⟩)),
   (load_none_iff_rejected corruptEnv seedExampleState rfl).2
      (Or.inr (Or.inl ⟨"this is not json", rfl⟩))⟩

/-- Claim C9: save(state) returns true exactly when the store is available,
the record serializes, and either the write succeeds or a quota-exceeded
failure is followed by a successful retry (after removing the existing
record); when the quota retry also fails, save returns false and the
record has been removed.  The function is total, so no exception escapes
it. -/
theorem save_result_characterization (env : StorageEnv) (now : Int)
    (state : CurriculumState) :
    ((saveCurriculumState env now state).1 = true ↔
      (env.available = true ∧ (curriculumStateToStoredData state now).isSome = true ∧
       (env.writeOutcomes.headD .ok = .ok ∨
        (env.writeOutcomes.headD .ok = .quotaExceeded ∧
         env.writeOutcomes.tail.headD .ok = .ok)))) ∧
    (env.available = true → (curriculumStateToStoredData state now).isSome = true →
      env.writeOutcomes.headD .ok = .quotaExceeded →
      env.writeOutcomes.tail.headD .ok ≠ .ok →
      ((saveCurriculumState env now state).1 = false ∧
       (saveCurriculumState env now state).2.cell = none)) := by
  obtain ⟨avail, cell, outs⟩ := env
  match avail with
  | false =>
    refine ⟨?_, ?_⟩
    · simp [saveCurriculumState]
    · intro h; simp at h
  | true =>
    match hconv : curriculumStateToStoredData state now with
    | none =>
      refine ⟨?_, ?_⟩
      · simp [saveCurriculumState, hconv]
      · intro _ h; simp at h
    | some sd =>
      match outs with
      | [] =>
        refine ⟨?_, ?_⟩
        · simp [saveCurriculumState, hconv, storeSetItem]
        · intro _ _ h; simp at h
      | .ok :: rest =>
        refine ⟨?_, ?_⟩
        · simp [saveCurriculumState, hconv, storeSetItem]
        · intro _ _ h; simp at h
      | .otherError :: rest =>
        refine ⟨?_, ?_⟩
        · simp [saveCurriculumState, hconv, storeSetItem]
        · intro _ _ h; simp at h
      | .quotaExceeded :: rest =>
        match rest with
        | [] =>
          refine ⟨?_, ?_⟩
          · simp [saveCurriculumState, hconv, storeSetItem, storeRemoveItem]
          · intro _ _ _ h; simp at h
        | .ok :: rest2 =>
          refine ⟨?_, ?_⟩
          · simp [saveCurriculumState, hconv, storeSetItem, storeRemoveItem]
          · intro _ _ _ h; simp at h
        | .quotaExceeded :: rest2 =>
          refine ⟨?_, ?_⟩
          · simp [saveCurriculumState, hconv, storeSetItem, storeRemoveItem]
          · intro _ _ _ _
            simp [saveCurriculumState, hconv, storeSetItem, storeRemoveItem]
        | .otherError :: rest2 =>
          refine ⟨?_, ?_⟩
          · simp [saveCurriculumState, hconv, storeSetItem, storeRemoveItem]
          · intro _ _ _ _
            simp [saveCurriculumState, hconv, storeSetItem, storeRemoveItem]

/-- Witness for C9: a quota-exceeded first write followed by a successful
retry yields true. -/
theorem save_result_characterization_witness :
    (saveCurriculumState quotaRetryEnv 5 consistentExampleState).1 = true :=
  (save_result_characterization quotaRetryEnv 5 consistentExampleState).1.mpr
    ⟨rfl, rfl, Or.inr ⟨rfl, rfl⟩⟩

/-- Upserting a key makes it look up to the new value. -/
theorem lookupFirst_objUpsert_self {β : Type} (l : List (String × β)) (k : String) (v : β) :
    lookupFirst (objUpsert l k v) k = some v := by
  induction l with
  | nil => simp [objUpsert, lookupFirst]
  | cons p rest ih =>
    obtain ⟨k0, v0⟩ := p
    by_cases h : k0 = k
    · subst h; simp [objUpsert, lookupFirst]
    · simp [objUpsert, lookupFirst, h, ih]

/-- Upserting the same key twice keeps only the second value. -/
theorem objUpsert_objUpsert {β : Type} (l : List (String × β)) (k : String) (a b : β) :
    objUpsert (objUpsert l k a) k b = objUpsert l k b := by
  induction l with
  | nil => simp [objUpsert]
  | cons p rest ih =>
    obtain ⟨k0, v0⟩ := p
    by_cases h : k0 = k
    · subst h; simp [objUpsert]
    · simp [objUpsert, h, ih]

/-- Upserting a binding that is already present is the identity. -/
theorem objUpsert_eq_self_of_lookup {β : Type} (l : List (String × β)) (k : String) (v : β)
    (h : lookupFirst l k = some v) : objUpsert l k v = l := by
  induction l with
  | nil => simp [lookupFirst] at h
  | cons p rest ih =>
    obtain ⟨k0, v0⟩ := p
    by_cases hk : k0 = k
    · subst hk
      simp [lookupFirst] at h
      simp [objUpsert, h]
    · simp only [lookupFirst, if_neg hk] at h
      simp [objUpsert, hk, ih h]

/-- Upserting an absent key appends the binding. -/
theorem objUpsert_eq_append_of_lookup_none {β : Type} (l : List (String × β)) (k : String)
    (v : β) (h : lookupFirst l k = none) : objUpsert l k v = l ++ [(k, v)] := by
  induction l with
  | nil => simp [objUpsert]
  | cons p rest ih =>
    obtain ⟨k0, v0⟩ := p
    by_cases hk : k0 = k
    · subst hk; simp [lookupFirst] at h
    · simp only [lookupFirst, if_neg hk] at h
      simp [objUpsert, hk, ih h]

/-- Lookup distributes over append, preferring the left list. -/
theorem lookupFirst_append {β : Type} (l1 l2 : List (String × β)) (k : String) :
    lookupFirst (l1 ++ l2) k =
      (match lookupFirst l1 k with
       | some v => some v
       | none => lookupFirst l2 k) := by
  induction l1 with
  | nil => simp [lookupFirst]
  | cons p rest ih =>
    obtain ⟨k0, v0⟩ := p
    by_cases hk : k0 = k
    · subst hk; simp [lookupFirst]
    · simp [lookupFirst, hk, ih]

/-- In an association list built by mapping with pairwise-distinct keys,
every element's key looks up to that element's value. -/
theorem lookupFirst_map_of_nodup {α β : Type} (l : List α) (key : α → String) (val : α → β)
    (hn : (l.map key).Nodup) (a : α) (ha : a ∈ l) :
    lookupFirst (l.map (fun x => (key x, val x))) (key a) = some (val a) := by
  induction l with
  | nil => cases ha
  | cons x xs ih =>
    simp only [List.map_cons, List.nodup_cons] at hn
    rcases List.mem_cons.mp ha with rfl | hmem
    · simp [lookupFirst]
    · have hne : key x ≠ key a := by
        intro he
        exact hn.1 (by rw [he]; exact List.mem_map_of_mem key hmem)
      simp [lookupFirst, hne, ih hn.2 hmem]

/-- With valid dates, a course's stored record is the closed form. -/
theorem storedCourseOf_eq_spec (c : Course)
    (h1 : dateFieldValid c.startDate = true) (h2 : dateFieldValid c.endDate = true) :
    storedCourseOf c = some (storedCourseSpec c) := by
  cases hs : c.startDate with
  | none =>
    cases he : c.endDate with
    | none => simp [storedCourseOf, storedCourseSpec, hs, he]
    | some d =>
      rw [he] at h2
      obtain ⟨t⟩ := d
      cases t with
      | none => simp [dateFieldValid] at h2
      | some tv => simp [storedCourseOf, storedCourseSpec, hs, he]
  | some d =>
    rw [hs] at h1
    obtain ⟨t⟩ := d
    cases t with
    | none => simp [dateFieldValid] at h1
    | some tv =>
      cases he : c.endDate with
      | none => simp [storedCourseOf, storedCourseSpec, hs, he]
      | some d2 =>
        rw [he] at h2
        obtain ⟨t2⟩ := d2
        cases t2 with
        | none => simp [dateFieldValid] at h2
        | some tv2 => simp [storedCourseOf, storedCourseSpec, hs, he]

/-- Folding upserts of pairwise-distinct fresh keys appends the bindings in
order. -/
theorem courseFold_map (courses : List Course) (acc : List (String × StoredCourse))
    (hnodup : (courses.map (fun c => c.id)).Nodup)
    (hfresh : ∀ c ∈ courses, lookupFirst acc c.id = none) :
    courses.foldl (fun inner course =>
      objUpsert inner course.id (storedCourseSpec course)) acc
      = acc ++ courses.map (fun c => (c.id, storedCourseSpec c)) := by
  induction courses generalizing acc with
  | nil => simp
  | cons c cs ih =>
    simp only [List.map_cons, List.nodup_cons] at hnodup
    rw [List.foldl_cons, objUpsert_eq_append_of_lookup_none _ _ _ (hfresh c (by simp))]
    have hfresh2 : ∀ x ∈ cs, lookupFirst (acc ++ [(c.id, storedCourseSpec c)]) x.id = none := by
      intro x hx
      rw [lookupFirst_append, hfresh x (by simp [hx])]
      have hne : c.id ≠ x.id := by
        intro he
        exact hnodup.1 (by rw [he]; exact List.mem_map_of_mem _ hx)
      simp [lookupFirst, hne]
    rw [ih (acc ++ [(c.id, storedCourseSpec c)]) hnodup.2 hfresh2]
    simp

/-- Inner loop of `curriculumStateToStoredData`: assigning the courses of a
week into the curriculum object rewrites exactly the week's binding. -/
theorem coursesFold_characterization (courses : List Course) (weekKey : String)
    (acc : List (String × List (String × StoredCourse)))
    (inner0 : List (String × StoredCourse))
    (hacc : lookupFirst acc weekKey = some inner0)
    (hvalid : ∀ c ∈ courses, storedCourseOf c = some (storedCourseSpec c)) :
    (courses.foldlM (fun acc2 course => do
        let sc ← storedCourseOf course
        let inner := (lookupFirst acc2 weekKey).getD []
        pure (objUpsert acc2 weekKey (objUpsert inner course.id sc))) acc : Option _)
    = some (objUpsert acc weekKey
        (courses.foldl (fun inner course =>
          objUpsert inner course.id (storedCourseSpec course)) inner0)) := by
  induction courses generalizing acc inner0 with
  | nil =>
    simp [objUpsert_eq_self_of_lookup acc weekKey inner0 hacc]
  | cons c cs ih =>
    have hc := hvalid c (by simp)
    have ih2 := ih (objUpsert acc weekKey (objUpsert inner0 c.id (storedCourseSpec c)))
      (objUpsert inner0 c.id (storedCourseSpec c))
      (lookupFirst_objUpsert_self acc weekKey _)
      (fun x hx => hvalid x (by simp [hx]))
    rw [List.foldlM_cons]
    simp only [hc, hacc, Option.getD_some, Option.pure_def, Option.bind_eq_bind,
      Option.some_bind]
    rw [List.foldl_cons]
    exact ih2.trans (by rw [objUpsert_objUpsert])

/-- Pointwise-equal functions map lists equally. -/
theorem list_map_congr {α β : Type} (l : List α) (f g : α → β)
    (h : ∀ a ∈ l, f a = g a) : l.map f = l.map g := by
  induction l with
  | nil => rfl
  | cons a l ih =>
    simp only [List.map_cons, h a (by simp), ih (fun a ha => h a (by simp [ha]))]

/-- Outer loop of `curriculumStateToStoredData`: with valid dates and
pairwise-distinct week keys that are fresh for the accumulator, the fold
appends one binding per week. -/
theorem weeksFold_characterization (weeks : List Week)
    (acc : List (String × List (String × StoredCourse)))
    (hvalid : ∀ w ∈ weeks, ∀ c ∈ w.courses, storedCourseOf c = some (storedCourseSpec c))
    (hkeys : (weeks.map (fun w => toString w.id)).Nodup)
    (hfresh : ∀ w ∈ weeks, lookupFirst acc (toString w.id) = none) :
    (weeks.foldlM (fun acc week => do
        let weekKey := toString week.id
        let withWeek := objUpsert acc weekKey ([] : List (String × StoredCourse))
        week.courses.foldlM (fun acc2 course => do
          let sc ← storedCourseOf course
          let inner := (lookupFirst acc2 weekKey).getD []
          pure (objUpsert acc2 weekKey (objUpsert inner course.id sc))) withWeek) acc
      : Option _)
    = some (acc ++ weeks.map (fun w => (toString w.id,
        w.courses.foldl (fun inner course =>
          objUpsert inner course.id (storedCourseSpec course)) []))) := by
  induction weeks generalizing acc with
  | nil => simp
  | cons w ws ih =>
    simp only [List.map_cons, List.nodup_cons] at hkeys
    have hstep := coursesFold_characterization w.courses (toString w.id)
      (objUpsert acc (toString w.id) []) []
      (lookupFirst_objUpsert_self acc (toString w.id) [])
      (fun c hc => hvalid w (by simp) c hc)
    have hrec : objUpsert (objUpsert acc (toString w.id) []) (toString w.id)
        (w.courses.foldl (fun inner course =>
          objUpsert inner course.id (storedCourseSpec course)) [])
        = acc ++ [(toString w.id, w.courses.foldl (fun inner course =>
            objUpsert inner course.id (storedCourseSpec course)) [])] := by
      rw [objUpsert_objUpsert,
        objUpsert_eq_append_of_lookup_none _ _ _ (hfresh w (by simp))]
    have hfresh2 : ∀ w2 ∈ ws, lookupFirst (acc ++ [(toString w.id,
        w.courses.foldl (fun inner course =>
          objUpsert inner course.id (storedCourseSpec course)) [])])
        (toString w2.id) = none := by
      intro w2 hw2
      rw [lookupFirst_append, hfresh w2 (by simp [hw2])]
      have hne : toString w.id ≠ toString w2.id := by
        intro he
        exact hkeys.1 (by rw [he]; exact List.mem_map_of_mem _ hw2)
      simp [lookupFirst, hne]
    have ih2 := ih (acc ++ [(toString w.id, w.courses.foldl (fun inner course =>
        objUpsert inner course.id (storedCourseSpec course)) [])])
      (fun w2 hw2 c hc => hvalid w2 (by simp [hw2]) c hc) hkeys.2 hfresh2
    rw [List.foldlM_cons]
    simp only [Option.pure_def, Option.bind_eq_bind] at hstep ih2 ⊢
    rw [hstep, hrec, Option.some_bind, ih2]
    simp

/-- `curriculumStateToStoredData` computes the closed-form record when every
date is valid and the storage keys are pairwise distinct. -/
theorem curriculumStateToStoredData_eq_spec (state : CurriculumState) (now : Int)
    (hdates : allDatesValid state = true)
    (hwkeys : (state.weeks.map (fun w => toString w.id)).Nodup)
    (hckeys : ∀ w ∈ state.weeks, (w.courses.map (fun c => c.id)).Nodup) :
    curriculumStateToStoredData state now = some (storedDataSpec state now) := by
  have hvalid : ∀ w ∈ state.weeks, ∀ c ∈ w.courses,
      storedCourseOf c = some (storedCourseSpec c) := by
    intro w hw c hc
    have hw2 := List.all_eq_true.mp hdates w hw
    have hc2 := List.all_eq_true.mp hw2 c hc
    rw [Bool.and_eq_true] at hc2
    exact storedCourseOf_eq_spec c hc2.1 hc2.2
  unfold curriculumStateToStoredData
  rw [weeksFold_characterization state.weeks [] hvalid hwkeys
    (fun w hw => rfl)]
  simp only [List.nil_append, Option.pure_def, Option.bind_eq_bind, Option.some_bind]
  unfold storedDataSpec
  simp only [Option.some.injEq, StoredData.mk.injEq, true_and]
  apply list_map_congr
  intro w hw
  rw [courseFold_map w.courses [] (hckeys w hw) (fun c hc => rfl)]
  simp

/-- The encoded course record's `completed` property. -/
theorem propGet_encodeStoredCourse_completed (sc : StoredCourse) :
    propGet (encodeStoredCourse sc) "completed" = some (.jbool sc.completed) := by
  obtain ⟨sd, ed, c⟩ := sc
  cases sd <;> cases ed <;> rfl

/-- The encoded course record's `startDate` property. -/
theorem propGet_encodeStoredCourse_startDate (sc : StoredCourse) :
    propGet (encodeStoredCourse sc) "startDate" =
      sc.startDate.map (fun t => Jval.jstr (.iso t)) := by
  obtain ⟨sd, ed, c⟩ := sc
  cases sd <;> cases ed <;> rfl

/-- The encoded course record's `endDate` property. -/
theorem propGet_encodeStoredCourse_endDate (sc : StoredCourse) :
    propGet (encodeStoredCourse sc) "endDate" =
      sc.endDate.map (fun t => Jval.jstr (.iso t)) := by
  obtain ⟨sd, ed, c⟩ := sc
  cases sd <;> cases ed <;> rfl

/-- An encoded course record passes per-course validation. -/
theorem validCourseEntry_encode (sc : StoredCourse) :
    validCourseEntry (encodeStoredCourse sc) = true := by
  obtain ⟨sd, ed, c⟩ := sc
  cases sd <;> cases ed <;> rfl

/-- The encoded record's `version` property. -/
theorem propGet_encode_version (sd : StoredData) :
    propGet (encodeStoredData sd) "version" = some (.jstr (.plain sd.version)) := rfl

/-- The encoded record's `curriculum` property. -/
theorem propGet_encode_curriculum (sd : StoredData) :
    propGet (encodeStoredData sd) "curriculum" =
      some (.jobj (sd.curriculum.map (fun weekEntry =>
        (weekEntry.1, Jval.jobj (weekEntry.2.map (fun courseEntry =>
          (courseEntry.1, encodeStoredCourse courseEntry.2))))))) := rfl

/-- An encoded record with a truthy version passes structural validation. -/
theorem validateStoredData_encode (sd : StoredData) (hv : sd.version ≠ "") :
    validateStoredData (encodeStoredData sd) = true := by
  have hver : jvalTruthy (propGet (encodeStoredData sd) "version") = true := by
    rw [propGet_encode_version]
    simp [jvalTruthy, jstrTruthy, hv]
  have hobj : jvalIsNonNullObject (encodeStoredData sd) = true := rfl
  have hlu : jvalTruthy (propGet (encodeStoredData sd) "lastUpdated") = true := rfl
  unfold validateStoredData
  rw [hobj, hver, hlu, propGet_encode_curriculum]
  simp only [jvalTruthy, jvalIsNonNullObject, jvalEntries, Bool.true_and, Bool.and_true]
  rw [List.all_eq_true]
  intro we hwe
  rw [List.mem_map] at hwe
  obtain ⟨p, hp, rfl⟩ := hwe
  rw [Bool.and_eq_true]
  refine ⟨rfl, ?_⟩
  rw [List.all_eq_true]
  intro ce hce
  simp only [jvalEntries] at hce
  rw [List.mem_map] at hce
  obtain ⟨q, hq, rfl⟩ := hce
  exact validCourseEntry_encode q.2

/-- Mapping on the left of a pointwise relation. -/
theorem forall₂_map_left {α β γ : Type} {f : α → γ} {R : γ → β → Prop}
    {l1 : List α} {l2 : List β}
    (h : List.Forall₂ (fun a b => R (f a) b) l1 l2) :
    List.Forall₂ R (l1.map f) l2 := by
  induction h with
  | nil => exact List.Forall₂.nil
  | cons hab htail ih => exact List.Forall₂.cons hab ih

/-- Strengthening a pointwise relation using membership of both sides. -/
theorem forall₂_imp_mem {α β : Type} {R S : α → β → Prop} :
    ∀ {l1 : List α} {l2 : List β}, List.Forall₂ R l1 l2 →
      (∀ a b, a ∈ l1 → b ∈ l2 → R a b → S a b) → List.Forall₂ S l1 l2 := by
  intro l1 l2 h
  induction h with
  | nil => exact fun _ => List.Forall₂.nil
  | cons hab htail ih =>
    intro himp
    exact List.Forall₂.cons (himp _ _ (by simp) (by simp) hab)
      (ih (fun a b ha hb hr => himp a b (by simp [ha]) (by simp [hb]) hr))

/-- Claim C3: persistence round-trip fidelity: for a state whose courses
carry valid (non-NaN) dates, with pairwise-distinct week storage keys and
per-week course ids, saving and then loading with a seed of the same shape
(same week ids and course ids) restores every course's completed flag,
startDate and endDate exactly (dates round-trip through their ISO-8601
renderings). -/
theorem save_load_roundtrip (env : StorageEnv) (now : Int) (state seed : CurriculumState)
    (havail : env.available = true) (houtcomes : env.writeOutcomes = [])
    (hdates : allDatesValid state = true)
    (hwkeys : (state.weeks.map (fun w => toString w.id)).Nodup)
    (hckeys : ∀ w ∈ state.weeks, (w.courses.map (fun c => c.id)).Nodup)
    (hshape : sameShape seed state) :
    (saveCurriculumState env now state).1 = true ∧
    ∃ loaded,
      (loadCurriculumState (saveCurriculumState env now state).2 seed).1 = some loaded ∧
      List.Forall₂ (fun loadedWeek stateWeek =>
        List.Forall₂ (fun loadedCourse stateCourse =>
          loadedCourse.completed = stateCourse.completed ∧
          loadedCourse.startDate = stateCourse.startDate ∧
          loadedCourse.endDate = stateCourse.endDate)
          loadedWeek.courses stateWeek.courses)
        loaded.weeks state.weeks := by
  have hvalids : ∀ w ∈ state.weeks, ∀ c ∈ w.courses,
      dateFieldValid c.startDate = true ∧ dateFieldValid c.endDate = true := by
    intro w hw c hc
    have hw2 := List.all_eq_true.mp hdates w hw
    have hc2 := List.all_eq_true.mp hw2 c hc
    rw [Bool.and_eq_true] at hc2
    exact hc2
  obtain ⟨avail, cell, outs⟩ := env
  simp only at havail houtcomes
  subst havail
  subst houtcomes
  have hconv := curriculumStateToStoredData_eq_spec state now hdates hwkeys hckeys
  have hsave : saveCurriculumState ⟨true, cell, []⟩ now state =
      (true, ⟨true, some (.jsonText (encodeStoredData (storedDataSpec state now))), []⟩) := by
    simp [saveCurriculumState, hconv, storeSetItem]
  rw [hsave]
  refine ⟨rfl, ?_⟩
  have hval : validateStoredData (encodeStoredData (storedDataSpec state now)) = true :=
    validateStoredData_encode _ (by simp [storedDataSpec])
  have hver : jvalPropIsPlainString
      (propGet (encodeStoredData (storedDataSpec state now)) "version") "1.0.0" = true := by
    rw [propGet_encode_version]
    simp [jvalPropIsPlainString, storedDataSpec]
  refine ⟨storedDataToCurriculumState
    (encodeStoredData (storedDataSpec state now)) seed, ?_, ?_⟩
  · simp [loadCurriculumState, hval, hver]
  · have hM : propGet (encodeStoredData (storedDataSpec state now)) "curriculum" =
        some (.jobj (state.weeks.map (fun w => (toString w.id,
          Jval.jobj (w.courses.map (fun c =>
            (c.id, encodeStoredCourse (storedCourseSpec c)))))))) := by
      rw [propGet_encode_curriculum]
      simp [storedDataSpec, List.map_map, Function.comp]
    have hlook : ∀ w ∈ state.weeks,
        propGet (Jval.jobj (state.weeks.map (fun w => (toString w.id,
          Jval.jobj (w.courses.map (fun c =>
            (c.id, encodeStoredCourse (storedCourseSpec c)))))))) (toString w.id) =
          some (.jobj (w.courses.map (fun c =>
            (c.id, encodeStoredCourse (storedCourseSpec c))))) := by
      intro w hw
      exact lookupFirst_map_of_nodup state.weeks (fun w => toString w.id)
        (fun w => Jval.jobj (w.courses.map (fun c =>
          (c.id, encodeStoredCourse (storedCourseSpec c))))) hwkeys w hw
    simp only [storedDataToCurriculumState, hM, Option.getD_some]
    apply forall₂_map_left
    refine forall₂_imp_mem hshape ?_
    intro seedW stateW hm1 hm2 hrel
    obtain ⟨hid, hcourses⟩ := hrel
    have htrW : jvalTruthy (some (.jobj (stateW.courses.map (fun c =>
        (c.id, encodeStoredCourse (storedCourseSpec c)))))) = true := rfl
    simp only [hid, hlook stateW hm2, htrW, Bool.not_true, Bool.false_eq_true,
      if_false, Option.getD_some]
    apply forall₂_map_left
    refine forall₂_imp_mem hcourses ?_
    intro seedC stateC hmc1 hmc2 hidc
    have hlookC : propGet (Jval.jobj (stateW.courses.map (fun c =>
        (c.id, encodeStoredCourse (storedCourseSpec c))))) stateC.id =
        some (encodeStoredCourse (storedCourseSpec stateC)) :=
      lookupFirst_map_of_nodup stateW.courses (fun c => c.id)
        (fun c => encodeStoredCourse (storedCourseSpec c)) (hckeys stateW hm2) stateC hmc2
    have htr : jvalTruthy (some (encodeStoredCourse (storedCourseSpec stateC))) = true := rfl
    simp only [hidc, hlookC, htr, Bool.not_true, Bool.false_eq_true, if_false,
      Option.getD_some, propGet_encodeStoredCourse_completed,
      propGet_encodeStoredCourse_startDate, propGet_encodeStoredCourse_endDate]
    obtain ⟨hvs, hve⟩ := hvalids stateW hm2 stateC hmc2
    refine ⟨by simp [storedCourseSpec], ?_, ?_⟩
    · cases hsd : stateC.startDate with
      | none => simp [storedCourseSpec, hsd, jvalTruthy]
      | some d =>
        rw [hsd] at hvs
        obtain ⟨t⟩ := d
        cases t with
        | none => simp [dateFieldValid] at hvs
        | some tv =>
          simp [storedCourseSpec, hsd, jvalTruthy, jstrTruthy, jvalToDate,
            jsNewDateOfString]
    · cases hed : stateC.endDate with
      | none => simp [storedCourseSpec, hed, jvalTruthy]
      | some d =>
        rw [hed] at hve
        obtain ⟨t⟩ := d
        cases t with
        | none => simp [dateFieldValid] at hve
        | some tv =>
          simp [storedCourseSpec, hed, jvalTruthy, jstrTruthy, jvalToDate,
            jsNewDateOfString]

/-- Witness for C3: a concrete save/load round-trip restoring the completed
flag and the end date exactly. -/
theorem save_load_roundtrip_witness :
    (saveCurriculumState normalEnv 999 consistentExampleState).1 = true ∧
    ∃ loaded,
      (loadCurriculumState (saveCurriculumState normalEnv 999 consistentExampleState).2
        seedExampleState).1 = some loaded ∧
      List.Forall₂ (fun loadedWeek stateWeek =>
        List.Forall₂ (fun loadedCourse stateCourse =>
          loadedCourse.completed = stateCourse.completed ∧
          loadedCourse.startDate = stateCourse.startDate ∧
          loadedCourse.endDate = stateCourse.endDate)
          loadedWeek.courses stateWeek.courses)
        loaded.weeks consistentExampleState.weeks :=
  save_load_roundtrip normalEnv 999 consistentExampleState seedExampleState
    rfl rfl (by decide) (by decide) (by decide)
    (by simp [sameShape, seedExampleState, consistentExampleState])
